import Mathlib

/-!
Shallow embedding of the resource rule-matching core of `ilib-lint`:
the `ResourceDNTTerms` rule (src/rules/ResourceDNTTerms.js), the
`DeclarativeResourceRule.matchString` aggregation (DeclarativeResourceRule.js),
and the `Project` file-type table and path resolution (Project.js).

JavaScript runtime values that the code inspects dynamically are embedded as
the inductive `JsValue`; JS strings are Lean `String`s; JS objects are ordered
association lists.  External collaborators (the file system, `JSON.parse`,
`micromatch.isMatch`, `path.normalize`) are taken as explicit function
parameters.
-/

/-- JavaScript runtime values, as far as the embedded code inspects them:
strings, arrays, plain objects (ordered field lists), numbers and
`undefined`. -/
inductive JsValue where
  | str (s : String)
  | arr (elems : List JsValue)
  | obj (fields : List (String × JsValue))
  | num (n : Int)
  | undef

/-- JS `s.includes(term)`: substring test, embedded as a decidable
list-infix test on the characters. -/
def jsIncludes (s term : String) : Bool := decide (term.data <:+: s.data)

/-- JS `typeof v === "string"` refined to the extracted string:
`some s` when `v` is the string `s`, `none` otherwise. -/
def JsValue.asStr : JsValue → Option String
  | .str s => some s
  | _ => none

/-- Elementwise `typeof x === "string"` over a JS array's elements, refined
to the extracted string list (`none` as soon as one element is not a
string). -/
def JsValue.asStrList : List JsValue → Option (List String)
  | [] => some []
  | v :: rest =>
    match v.asStr, JsValue.asStrList rest with
    | some s, some ss => some (s :: ss)
    | _, _ => none

/-- JS `Array.isArray(v) && v.every(x => typeof x === "string")` refined to
the extracted string list. -/
def JsValue.asStringArray : JsValue → Option (List String)
  | .arr elems => JsValue.asStrList elems
  | _ => none

/-- JS `v instanceof Object`: true for arrays and plain objects, false for
primitives and `undefined`. -/
def JsValue.instanceOfObject : JsValue → Bool
  | .arr _ => true
  | .obj _ => true
  | _ => false

/-- JS `Object.entries(v)`: the own enumerable key/value pairs in order.
For arrays the keys are the decimal indices. -/
def JsValue.entries : JsValue → List (String × JsValue)
  | .obj fields => fields
  | .arr elems => elems.enum.map (fun p => (toString p.1, p.2))
  | _ => []

/-- The string-valued entries of a JS object, in enumeration order
(keeps exactly the pairs whose value is a string). -/
def JsValue.strEntries (v : JsValue) : List (String × String) :=
  v.entries.filterMap (fun kv => kv.2.asStr.map (fun s => (kv.1, s)))

/-- A partial result pushed by the shape matchers of `ResourceDNTTerms`:
the offending source fragment and the highlight string. -/
structure PartialResult where
  source : String
  highlight : String
deriving DecidableEq

/-- The highlight string built for a missing DNT term. -/
def dntHighlight (term : String) : String := "Missing term: <e0>" ++ term ++ "</e0>"

/-- `ResourcePlural.validPluralCategories` from `ilib-tools-common`.
Modelled from the spec: the fixed closed set of CLDR-style plural
categories (`zero, one, two, few, many, other`); the constant itself lives
in the external `ilib-tools-common` library. -/
def validPluralCategories : List String := ["zero", "one", "two", "few", "many", "other"]

/-- The rule state of `ResourceDNTTerms`: the deduplicated list of
do-not-translate terms computed by the constructor. -/
structure ResourceDNTTerms where
  _dntTerms : List String
deriving DecidableEq

/-- `ResourceDNTTerms._matchString(source, target)`: for each configured term,
if the source contains it and the target does not, push one partial result
citing the source and the term highlight. -/
def ResourceDNTTerms.matchStringF (terms : List String) (source target : String) :
    List PartialResult :=
  terms.filterMap (fun term =>
    if jsIncludes source term && !jsIncludes target term then
      some { source := source, highlight := dntHighlight term }
    else none)

/-- The body of `ResourceDNTTerms._matchArray`'s `forEach`: walk the source
items carrying the current index, pairing each with `target[idx] ?? ""`. -/
def ResourceDNTTerms.matchArrayGo (terms : List String) (target : List String) :
    List String → Nat → List PartialResult
  | [], _ => []
  | sourceItem :: rest, idx =>
    ResourceDNTTerms.matchStringF terms sourceItem (target.getD idx "")
      ++ ResourceDNTTerms.matchArrayGo terms target rest (idx + 1)

/-- `ResourceDNTTerms._matchArray(source, target)`: sequentially compare each
index-aligned item pair, a missing target index standing in as `""`. -/
def ResourceDNTTerms.matchArrayF (terms source target : List String) :
    List PartialResult :=
  ResourceDNTTerms.matchArrayGo terms target source 0

/-- `ResourceDNTTerms._matchPlural(source, target)`: for each configured term,
if any source category value contains it (`Object.values(source).find`) and
not every target category value contains it, push one partial result citing
the first matching source value. -/
def ResourceDNTTerms.matchPluralF (terms : List String)
    (source target : List (String × String)) : List PartialResult :=
  terms.filterMap (fun term =>
    match (source.map Prod.snd).find? (fun sourceItem => jsIncludes sourceItem term) with
    | some matchingSourceItem =>
      if !((target.map Prod.snd).all (fun targetItem => jsIncludes targetItem term)) then
        some { source := matchingSourceItem, highlight := dntHighlight term }
      else none
    | none => none)

/-- A resource handed to the rule: key, declared shape tag (`getType()`),
and dynamically typed source and target values. -/
structure Resource where
  key : String
  type : String
  source : JsValue
  target : JsValue

/-- The `plural` branch's type check in `_matchResource`: both values are
`instanceof Object` and every entry of either has a valid CLDR plural
category key and a string value. -/
def pluralTypeCheck (source target : JsValue) : Bool :=
  source.instanceOfObject && target.instanceOfObject &&
    (source.entries ++ target.entries).all
      (fun kv => validPluralCategories.contains kv.1 && kv.2.asStr.isSome)

/-- `ResourceDNTTerms._matchResource(resource)`: dispatch on the resource
shape, type-check the contents, and run the shape matcher; `none` embeds the
bare `return` (JS `undefined`) used when the shape is unknown or the contents
do not type-check. -/
def ResourceDNTTerms.matchResourceF (terms : List String) (r : Resource) :
    Option (List PartialResult) :=
  match r.type with
  | "string" =>
    match r.source.asStr, r.target.asStr with
    | some s, some t => some (ResourceDNTTerms.matchStringF terms s t)
    | _, _ => none
  | "array" =>
    match r.source.asStringArray, r.target.asStringArray with
    | some s, some t => some (ResourceDNTTerms.matchArrayF terms s t)
    | _, _ => none
  | "plural" =>
    if pluralTypeCheck r.source r.target then
      some (ResourceDNTTerms.matchPluralF terms r.source.strEntries r.target.strEntries)
    else none
  | _ => none

/-- The boolean shape/content type check performed by `_matchResource`,
factored out: true exactly on the branches where a shape matcher runs. -/
def resourceTypeChecks (r : Resource) : Bool :=
  match r.type with
  | "string" => r.source.asStr.isSome && r.target.asStr.isSome
  | "array" => r.source.asStringArray.isSome && r.target.asStringArray.isSome
  | "plural" => pluralTypeCheck r.source r.target
  | _ => false

/-- A `Result` as constructed by `ResourceDNTTerms.match`.  Modelled from the
spec: the finding shape `{ruleName, severity, pathName, locale, id,
description, source, highlight}` of the external `i18nlint-common` `Result`
class. -/
structure Result where
  ruleName : String
  id : String
  pathName : String
  locale : String
  severity : String
  description : String
  source : String
  highlight : String
deriving DecidableEq

/-- The spread `{...resultProps, ...partialResult}` of `ResourceDNTTerms.match`
turned into a `Result`. -/
def mkDNTResult (key file locale : String) (pr : PartialResult) : Result :=
  { ruleName := "resource-dnt-terms"
    id := key
    pathName := file
    locale := locale
    severity := "error"
    description := "A DNT term is missing in target string."
    source := pr.source
    highlight := pr.highlight }

/-- `ResourceDNTTerms.match({resource, file, locale})`: build the shared result
properties and map them over the optional partial-result list of
`_matchResource` (`?.map` propagates `undefined` as `none`). -/
def ResourceDNTTerms.matchRule (rule : ResourceDNTTerms) (resource : Resource)
    (file locale : String) : Option (List Result) :=
  (ResourceDNTTerms.matchResourceF rule._dntTerms resource).map
    (fun prs => prs.map (mkDNTResult resource.key file locale))

/-- One step of calling `match` on a rule instance, with the rule state
threaded explicitly: the method body contains no assignment to `this`, so the
post-state is the pre-state. -/
def ResourceDNTTerms.matchStep (rule : ResourceDNTTerms) (resource : Resource)
    (file locale : String) : Option (List Result) × ResourceDNTTerms :=
  (ResourceDNTTerms.matchRule rule resource file locale, rule)

/-- JS `[...new Set(l)]`: deduplicate keeping the first occurrence of each
element, in insertion order. -/
def jsSetDedup (l : List String) : List String :=
  l.foldl (fun acc x => if x ∈ acc then acc else acc ++ [x]) []

/-- The parameters object accepted by the `ResourceDNTTerms` constructor:
`none` means the key is absent (`"terms" in params` is false). -/
structure DNTParams where
  terms : Option JsValue := none
  termsFilePath : Option String := none
  termsFileType : Option String := none

/-- `ResourceDNTTerms.parseTermsFromJsonFile(path)`: read the file, parse it
as JSON (a parse failure throws), and require the content to be an array of
strings.  `readFile` embeds `fs.readFileSync` and `jsonParse` embeds
`JSON.parse` (with `none` for a parse error); errors are `Except.error`. -/
def ResourceDNTTerms.parseTermsFromJsonFile (readFile : String → String)
    (jsonParse : String → Option JsValue) (path : String) :
    Except String (List String) :=
  let text := readFile path
  match jsonParse text with
  | none => .error "Failed to parse DNT terms file as JSON"
  | some content =>
    match content.asStringArray with
    | some terms => .ok terms
    | none => .error "DNT terms JSON file has unexpected content; expected string[]"

/-- `ResourceDNTTerms.parseTermsFromTxtFile(path)`: split the file on runs of
CR/LF, trim each line, and drop empty lines. -/
def ResourceDNTTerms.parseTermsFromTxtFile (readFile : String → String)
    (path : String) : List String :=
  let text := readFile path
  ((text.split (fun c => c == '\r' || c == '\n')).map String.trim).filter
    (fun line => 0 < line.length)

/-- The term-list resolution in the `ResourceDNTTerms` constructor: explicit
terms take priority and must be a string array; otherwise a terms file is
parsed according to its declared type tag (`json` or `txt`, anything else
throws); with neither, the term list is empty. -/
def ResourceDNTTerms.constructTerms (readFile : String → String)
    (jsonParse : String → Option JsValue) (params : DNTParams) :
    Except String (List String) :=
  match params.terms with
  | some v =>
    match v.asStringArray with
    | some ts => .ok ts
    | none => .error "DNT terms provided in an unexpected format; expected string[]"
  | none =>
    match params.termsFilePath with
    | some path =>
      match params.termsFileType with
      | some "json" => ResourceDNTTerms.parseTermsFromJsonFile readFile jsonParse path
      | some "txt" => .ok (ResourceDNTTerms.parseTermsFromTxtFile readFile path)
      | _ => .error "not a valid DNT terms file type"
    | none => .ok []

/-- The `ResourceDNTTerms` constructor: resolve the term list (see
`ResourceDNTTerms.constructTerms`), then store it deduplicated and with empty
terms dropped; a thrown error is an `Except.error`. -/
def ResourceDNTTerms.construct (readFile : String → String)
    (jsonParse : String → Option JsValue) (params : DNTParams) :
    Except String ResourceDNTTerms :=
  (ResourceDNTTerms.constructTerms readFile jsonParse params).map
    (fun terms => ⟨jsSetDedup (terms.filter (fun t => 0 < t.length))⟩)

/-- The value an abstract `checkString` implementation may return to
`DeclarativeResourceRule.matchString`: one result (possibly `undefined`,
embedded as `none`), or an array of such. -/
inductive CheckStringOut (α : Type) where
  | single (r : Option α)
  | list (rs : List (Option α))

/-- JS `acc.concat(x)`: appends the elements of `x` when `x` is an array,
otherwise appends `x` itself as one element. -/
def jsConcat {α : Type} (acc : List (Option α)) (x : CheckStringOut α) :
    List (Option α) :=
  match x with
  | .single r => acc ++ [r]
  | .list rs => acc ++ rs

/-- `DeclarativeResourceRule.matchString`: fold `checkString` over the
compiled pattern list with JS `concat`, drop falsy entries
(`filter(result => result)`), and return `undefined` for an empty list. -/
def DeclarativeResourceRule.matchStringF {α β : Type}
    (checkString : β → CheckStringOut α) (re : List β) : Option (List α) :=
  let results := re.foldl (fun results r => jsConcat results (checkString r)) []
  let results := results.filterMap id
  if results.length ≠ 0 then some results else none

/-- The findings an individual `checkString` call contributes after JS
`concat` flattening and truthiness filtering. -/
def CheckStringOut.findings {α : Type} : CheckStringOut α → List α
  | .single r => r.toList
  | .list rs => rs.filterMap id

/-- A file-type definition as found in configuration: an optional glob and
an optional list of rule-set names (the `name` comes from the enclosing
key). -/
structure FileTypeDef where
  glob : Option String := none
  ruleset : List String := []
deriving DecidableEq

/-- A concrete file type held in the project's `filetypes` table.  Modelled
from the spec: `FileType` (src/FileType.js is not part of the sources)
carries its name, glob pattern and rule-set references. -/
structure FileType where
  name : String
  glob : Option String := none
  ruleset : List String := []
deriving DecidableEq

/-- Modelled from the spec: building a `FileType` from a definition under a
given name (`new FileType({name, project, ...definition})`). -/
def FileType.ofDef (name : String) (d : FileTypeDef) : FileType :=
  { name := name, glob := d.glob, ruleset := d.ruleset }

/-- A value of the `paths` mapping: a string names a file type, an object is
an on-the-fly file type definition. -/
inductive PathMappingValue where
  | ftName (name : String)
  | inlineDef (d : FileTypeDef)
deriving DecidableEq

/-- The `rulesetDefinitions` constant of Project.js: the default
`resource-check-all` rule set. -/
def rulesetDefinitions : List (String × List (String × Bool)) :=
  [("resource-check-all",
    [("resource-icu-plurals", true),
     ("resource-quote-style", true),
     ("resource-unique-keys", true),
     ("resource-url-match", true),
     ("resource-named-params", true)])]

/-- The `xliffFileTypeDefinition` constant of Project.js. -/
def xliffFileTypeDefinition : FileType :=
  { name := "xliff", glob := some "**/*.xliff", ruleset := ["resource-check-all"] }

/-- The `unknownFileTypeDefinition` constant of Project.js (no rule set). -/
def unknownFileTypeDefinition : FileType :=
  { name := "unknown", glob := some "**/*", ruleset := [] }

/-- JS object property assignment `obj[k] = v` on an ordered association
list: replace in place when the key exists, else append. -/
def objSet {α : Type} (obj : List (String × α)) (k : String) (v : α) :
    List (String × α) :=
  if obj.any (fun kv => kv.1 = k) then
    obj.map (fun kv => if kv.1 = k then (k, v) else kv)
  else obj ++ [(k, v)]

/-- JS object property read `obj[k]` on an ordered association list
(`undefined` as `none`). -/
def objGet {α : Type} (obj : List (String × α)) (k : String) : Option α :=
  (obj.find? (fun kv => kv.1 = k)).map Prod.snd

/-- The parts of a project configuration that drive the file-type table and
the path mappings (`none` embeds an absent key). -/
structure ProjectConfig where
  filetypes : Option (List (String × FileTypeDef)) := none
  paths : Option (List (String × PathMappingValue)) := none

/-- The file-type table and path mappings of a constructed `Project`. -/
structure Project where
  filetypes : List (String × FileType)
  mappings : List (String × PathMappingValue)

/-- The `Project` constructor's population of `this.filetypes` and
`this.mappings`: start from the two built-ins, assign one entry per
configured file type, then assign one on-the-fly file type per `paths`
entry whose value is an object.  An absent `paths` key leaves the mapping
iteration empty. -/
def Project.construct (config : ProjectConfig) : Project :=
  let ft0 : List (String × FileType) :=
    [("xliff", xliffFileTypeDefinition), ("unknown", unknownFileTypeDefinition)]
  let ft1 :=
    match config.filetypes with
    | some userFts => userFts.foldl (fun tbl kd => objSet tbl kd.1 (FileType.ofDef kd.1 kd.2)) ft0
    | none => ft0
  let mappings := config.paths.getD []
  let ft2 := mappings.foldl
    (fun tbl gv =>
      match gv.2 with
      | .inlineDef d => objSet tbl gv.1 (FileType.ofDef gv.1 d)
      | .ftName _ => tbl) ft1
  ⟨ft2, mappings⟩

/-- The name under which a winning mapping entry is looked up in the
file-type table: the entry's string value when it names a file type,
otherwise (on-the-fly definition) the glob itself. -/
def mappingTargetName (gv : String × PathMappingValue) : String :=
  match gv.2 with
  | .ftName s => s
  | .inlineDef _ => gv.1

/-- `Project.getFileTypeForPath(pathName)`: normalize the path, scan the
mappings in declaration order, and for the first matching glob resolve the
named (or on-the-fly) file type, falling back to `filetypes["unknown"]` for a
dangling name or when nothing matches.  `isMatch` embeds `micromatch.isMatch`
and `normalize` embeds `path.normalize`; the result is `none` only if the
table has no `"unknown"` entry (impossible for constructed projects). -/
def Project.getFileTypeForPath (isMatch : String → String → Bool)
    (normalize : String → String) (proj : Project) (pathName : String) :
    Option FileType :=
  let pathName := normalize pathName
  match proj.mappings.find? (fun gv => isMatch pathName gv.1) with
  | some gv =>
    (objGet proj.filetypes (mappingTargetName gv)).orElse
      (fun _ => objGet proj.filetypes "unknown")
  | none => objGet proj.filetypes "unknown"

def strDict (l : List (String × String)) : JsValue :=
  JsValue.obj (l.map (fun p => (p.1, JsValue.str p.2)))

def jsStrArr (l : List String) : JsValue := JsValue.arr (l.map JsValue.str)

def matchArraySpec (terms source target : List String) : List PartialResult :=
  ((List.range source.length).map
    (fun i => ResourceDNTTerms.matchStringF terms (source.getD i "") (target.getD i ""))).flatten

/-- Spec-side characterization, following the claim's words: no configured
term that occurs in the (shape-relevant part of the) source is missing from
the corresponding part of the target. -/
def specNoMissingTerm (terms : List String) (r : Resource) : Bool :=
  match r.type with
  | "string" =>
    match r.source.asStr, r.target.asStr with
    | some s, some t => terms.all (fun x => !jsIncludes s x || jsIncludes t x)
    | _, _ => true
  | "array" =>
    match r.source.asStringArray, r.target.asStringArray with
    | some s, some t =>
      (List.range s.length).all (fun i =>
        terms.all (fun x => !jsIncludes (s.getD i "") x || jsIncludes (t.getD i "") x))
    | _, _ => true
  | "plural" =>
    terms.all (fun x =>
      !((r.source.strEntries.map Prod.snd).any (fun v => jsIncludes v x))
        || (r.target.strEntries.map Prod.snd).all (fun v => jsIncludes v x))
  | _ => true

/-- The condition under which user configuration does not touch the table
entry named `name`: no configured file type uses that name and no `paths`
entry with an inline (object) value uses it as its glob key. -/
def noUserOverride (config : ProjectConfig) (name : String) : Prop :=
  (∀ kd ∈ config.filetypes.getD [], kd.1 ≠ name)
  ∧ (∀ gv ∈ config.paths.getD [], ∀ d, gv.2 = PathMappingValue.inlineDef d → gv.1 ≠ name)

def overridingConfig : ProjectConfig where
  filetypes := some [("xliff", { glob := some "**/*.xlf", ruleset := ["my-rules"] })]

def demoConfig : ProjectConfig where
  filetypes := some [("A", {}), ("B", {})]
  paths := some [("src/**", .ftName "A"), ("**/*.js", .ftName "B")]

def demoMatch : String → String → Bool :=
  fun p g => p == "src/x.js" && (g == "src/**" || g == "**/*.js")

lemma dntHighlight_inj {a b : String} (h : dntHighlight a = dntHighlight b) : a = b := by
  have hd := congrArg String.data h
  simp only [dntHighlight, String.data_append] at hd
  exact String.ext (List.append_cancel_left (List.append_cancel_right hd))

lemma matchStringF_eq (T : List String) (s t : String) :
    ResourceDNTTerms.matchStringF T s t
      = (T.filter (fun y => jsIncludes s y && !jsIncludes t y)).map
          (fun y => ⟨s, dntHighlight y⟩) := by
  induction T with
  | nil => rfl
  | cons a T ih =>
    rw [ResourceDNTTerms.matchStringF, List.filterMap_cons, List.filter_cons]
    rw [ResourceDNTTerms.matchStringF] at ih
    cases h : (jsIncludes s a && !jsIncludes t a) with
    | false => simpa [h] using ih
    | true => simpa [h] using ih

lemma jsIncludes_iff (s x : String) : jsIncludes s x = true ↔ x.data <:+: s.data := by
  simp [jsIncludes]

lemma strEntries_strDict (l : List (String × String)) : (strDict l).strEntries = l := by
  induction l with
  | nil => rfl
  | cons a l ih =>
    simp only [strDict, JsValue.strEntries, JsValue.entries, List.map_cons,
      List.filterMap_cons, JsValue.asStr, Option.map_some'] at *
    simp [ih]

lemma pluralTypeCheck_strDict (a b : List (String × String))
    (ha : ∀ p ∈ a, p.1 ∈ validPluralCategories)
    (hb : ∀ p ∈ b, p.1 ∈ validPluralCategories) :
    pluralTypeCheck (strDict a) (strDict b) = true := by
  simp only [pluralTypeCheck, strDict, JsValue.instanceOfObject, JsValue.entries,
    Bool.and_eq_true, List.all_eq_true, List.mem_append, List.mem_map]
  refine ⟨⟨trivial, trivial⟩, ?_⟩
  rintro kv (⟨p, hp, rfl⟩ | ⟨p, hp, rfl⟩) <;>
    simp [JsValue.asStr, List.contains, List.elem_iff] <;>
    [exact ha p hp; exact hb p hp]

lemma mem_matchPluralF (T : List String) (src tgt : List (String × String))
    (pr : PartialResult) :
    pr ∈ ResourceDNTTerms.matchPluralF T src tgt
      ↔ ∃ y ∈ T, ∃ m, (src.map Prod.snd).find? (fun v => jsIncludes v y) = some m
          ∧ (tgt.map Prod.snd).all (fun v => jsIncludes v y) = false
          ∧ pr = ⟨m, dntHighlight y⟩ := by
  rw [ResourceDNTTerms.matchPluralF, List.mem_filterMap]
  constructor
  · rintro ⟨y, hy, hf⟩
    cases hfind : (src.map Prod.snd).find? (fun v => jsIncludes v y) with
    | none => rw [hfind] at hf; exact absurd hf (by simp)
    | some m =>
      rw [hfind] at hf
      cases hall : (tgt.map Prod.snd).all (fun v => jsIncludes v y) with
      | true => rw [hall] at hf; exact absurd hf (by simp)
      | false =>
        rw [hall] at hf
        simp only [Bool.not_false, if_true] at hf
        exact ⟨y, hy, m, hfind, hall, (Option.some.inj hf).symm⟩
  · rintro ⟨y, hy, m, hfind, hall, rfl⟩
    exact ⟨y, hy, by rw [hfind, hall]; rfl⟩

lemma countP_filterMap_le_one {α β : Type} (T : List α) (f : α → Option β) (p : β → Bool)
    (x : α) (hT : T.Nodup) (hf : ∀ y ∈ T, ∀ b, f y = some b → p b = true → y = x) :
    (T.filterMap f).countP p ≤ 1 := by
  induction T with
  | nil => simp
  | cons a T ih =>
    rw [List.filterMap_cons]
    have ihT := ih (List.Nodup.of_cons hT)
      (fun y hy b hb hp => hf y (List.mem_cons_of_mem a hy) b hb hp)
    cases hfa : f a with
    | none => exact ihT
    | some b =>
      rw [List.countP_cons]
      cases hp : p b with
      | false => simpa [hp] using ihT
      | true =>
        have hax : a = x := hf a (List.mem_cons_self a T) b hfa hp
        have hzero : (T.filterMap f).countP p = 0 := by
          rw [List.countP_eq_zero]
          intro b' hb' hpb'
          obtain ⟨y, hy, hfy⟩ := List.mem_filterMap.mp hb'
          have hyx : y = x := hf y (List.mem_cons_of_mem a hy) b' hfy hpb'
          exact (List.nodup_cons.mp hT).1 (by rw [hax, ← hyx]; exact hy)
        simp [hp, hzero]

lemma matchArrayGo_eq (terms tgt : List String) (src : List String) (idx : Nat) :
    ResourceDNTTerms.matchArrayGo terms tgt src idx
      = ((List.range src.length).map
          (fun i => ResourceDNTTerms.matchStringF terms (src.getD i "")
            (tgt.getD (idx + i) ""))).flatten := by
  induction src generalizing idx with
  | nil => rfl
  | cons a src ih =>
    have hf : (fun i => ResourceDNTTerms.matchStringF terms (src.getD i "")
          (tgt.getD (idx + 1 + i) ""))
        = ((fun i => ResourceDNTTerms.matchStringF terms ((a :: src).getD i "")
            (tgt.getD (idx + i) "")) ∘ Nat.succ) := by
      funext i
      simp only [Function.comp_apply, List.getD_cons_succ]
      congr 2
      omega
    rw [ResourceDNTTerms.matchArrayGo, List.length_cons, List.range_succ_eq_map,
      List.map_cons, List.flatten_cons, ih (idx + 1), hf, List.map_map]
    congr 1

lemma asStringArray_jsStrArr (l : List String) : (jsStrArr l).asStringArray = some l := by
  induction l with
  | nil => rfl
  | cons a l ih =>
    simp only [jsStrArr, JsValue.asStringArray, List.map_cons, JsValue.asStrList,
      JsValue.asStr] at *
    rw [ih]

lemma isSome_matchResourceF (terms : List String) (r : Resource) :
    (ResourceDNTTerms.matchResourceF terms r).isSome = resourceTypeChecks r := by
  rw [ResourceDNTTerms.matchResourceF, resourceTypeChecks]
  split
  · cases hs : r.source.asStr <;> cases ht : r.target.asStr <;> simp [hs, ht]
  · cases hs : r.source.asStringArray <;> cases ht : r.target.asStringArray <;> simp [hs, ht]
  · cases hp : pluralTypeCheck r.source r.target <;> simp [hp]
  · simp

lemma matchStringF_eq_nil (terms : List String) (s t : String)
    (h : terms.all (fun x => !jsIncludes s x || jsIncludes t x) = true) :
    ResourceDNTTerms.matchStringF terms s t = [] := by
  rw [matchStringF_eq, List.map_eq_nil_iff, List.filter_eq_nil_iff]
  intro a ha
  have := List.all_eq_true.mp h a ha
  cases hxs : jsIncludes s a <;> cases hxt : jsIncludes t a <;> simp_all

lemma matchResourceF_eq_nil (terms : List String) (r : Resource)
    (h1 : resourceTypeChecks r = true) (h2 : specNoMissingTerm terms r = true) :
    ResourceDNTTerms.matchResourceF terms r = some [] := by
  obtain ⟨k, ty, src, tgt⟩ := r
  rw [ResourceDNTTerms.matchResourceF]
  split
  · -- string
    rename_i heq
    simp only at heq
    subst heq
    have h1s : (src.asStr.isSome && tgt.asStr.isSome) = true := h1
    have h2s : (match src.asStr, tgt.asStr with
        | some s, some t => terms.all (fun x => !jsIncludes s x || jsIncludes t x)
        | _, _ => true) = true := h2
    rw [Bool.and_eq_true, Option.isSome_iff_exists, Option.isSome_iff_exists] at h1s
    obtain ⟨⟨s, hs⟩, ⟨t, ht⟩⟩ := h1s
    rw [hs, ht] at h2s ⊢
    have h2t : (terms.all fun x => !jsIncludes s x || jsIncludes t x) = true := h2s
    have hnil := matchStringF_eq_nil terms s t h2t
    simp [hnil]
  · -- array
    rename_i heq
    simp only at heq
    subst heq
    have h1s : (src.asStringArray.isSome && tgt.asStringArray.isSome) = true := h1
    have h2s : (match src.asStringArray, tgt.asStringArray with
        | some s, some t => (List.range s.length).all (fun i =>
            terms.all (fun x => !jsIncludes (s.getD i "") x || jsIncludes (t.getD i "") x))
        | _, _ => true) = true := h2
    rw [Bool.and_eq_true, Option.isSome_iff_exists, Option.isSome_iff_exists] at h1s
    obtain ⟨⟨s, hs⟩, ⟨t, ht⟩⟩ := h1s
    rw [hs, ht] at h2s ⊢
    have h2t : ((List.range s.length).all (fun i =>
        terms.all (fun x => !jsIncludes (s.getD i "") x || jsIncludes (t.getD i "") x))) = true := h2s
    have harr : ResourceDNTTerms.matchArrayF terms s t = [] := by
      rw [ResourceDNTTerms.matchArrayF, matchArrayGo_eq, List.flatten_eq_nil_iff]
      intro x hx
      obtain ⟨i, hi, rfl⟩ := List.mem_map.mp hx
      refine matchStringF_eq_nil terms _ _ ?_
      have := List.all_eq_true.mp h2t i hi
      simpa [Nat.zero_add] using this
    simp [harr]
  · -- plural
    rename_i heq
    simp only at heq
    subst heq
    have h1p : pluralTypeCheck src tgt = true := h1
    have h2p : (terms.all fun x =>
        !(((JsValue.strEntries src).map Prod.snd).any fun v => jsIncludes v x)
          || ((JsValue.strEntries tgt).map Prod.snd).all fun v => jsIncludes v x) = true := h2
    rw [if_pos h1p]
    congr 1
    rw [ResourceDNTTerms.matchPluralF, List.filterMap_eq_nil_iff]
    intro x hx
    have hx2 := List.all_eq_true.mp h2p x hx
    cases hany : ((JsValue.strEntries src).map Prod.snd).any (fun v => jsIncludes v x) with
    | false =>
      have hnone : ((JsValue.strEntries src).map Prod.snd).find?
          (fun v => jsIncludes v x) = none := by
        rw [List.find?_eq_none]
        intro a ha hpa
        have hcontra : ((JsValue.strEntries src).map Prod.snd).any
            (fun v => jsIncludes v x) = true := List.any_eq_true.mpr ⟨a, ha, hpa⟩
        rw [hany] at hcontra
        cases hcontra
      rw [hnone]
    | true =>
      rw [hany] at hx2
      simp only [Bool.not_true, Bool.false_or] at hx2
      cases hfind : ((JsValue.strEntries src).map Prod.snd).find? (fun v => jsIncludes v x) with
      | none => rfl
      | some m => rw [hx2]; rfl
  · -- unknown type: contradiction with the type check
    rw [resourceTypeChecks] at h1
    split at h1 <;> simp_all

lemma filterMap_foldl_jsConcat {α β : Type} (check : β → CheckStringOut α)
    (re : List β) (acc : List (Option α)) :
    (re.foldl (fun results r => jsConcat results (check r)) acc).filterMap id
      = acc.filterMap id ++ (re.map (fun r => (check r).findings)).flatten := by
  induction re generalizing acc with
  | nil => simp
  | cons b re ih =>
    rw [List.foldl_cons, ih, List.map_cons, List.flatten_cons, ← List.append_assoc]
    congr 1
    cases hc : check b with
    | single r => cases r <;> simp [jsConcat, CheckStringOut.findings, List.filterMap_append]
    | list rs => simp [jsConcat, CheckStringOut.findings, List.filterMap_append]

lemma find?_keyUpdate {α : Type} (tbl : List (String × α)) (k k' : String) (v : α) :
    (tbl.map (fun kv => if kv.1 = k then (k, v) else kv)).find? (fun kv => kv.1 = k')
      = if k' = k then (tbl.find? (fun kv => kv.1 = k)).map (fun _ => (k, v))
        else tbl.find? (fun kv => kv.1 = k') := by
  induction tbl with
  | nil => by_cases h : k' = k <;> simp [h]
  | cons a tl ih =>
    by_cases h1 : a.1 = k
    · by_cases h2 : k' = k
      · subst h2
        simp [h1, ih]
      · have hk : ¬ (k = k') := fun hh => h2 hh.symm
        simp [h1, h2, hk, ih]
    · by_cases h2 : k' = k
      · subst h2
        simp [h1, ih]
      · by_cases h3 : a.1 = k'
        · simp [h1, h2, h3]
        · simp [h1, h2, h3, ih]

lemma objGet_objSet {α : Type} (tbl : List (String × α)) (k k' : String) (v : α) :
    objGet (objSet tbl k v) k' = if k' = k then some v else objGet tbl k' := by
  rw [objGet, objSet]
  by_cases hany : (tbl.any (fun kv => kv.1 = k)) = true
  · rw [if_pos hany, find?_keyUpdate]
    by_cases h2 : k' = k
    · subst h2
      rw [if_pos rfl, if_pos rfl]
      have hsome : (tbl.find? (fun kv => kv.1 = k')).isSome = true := by
        rw [List.find?_isSome]
        obtain ⟨kv, hkv, hp⟩ := List.any_eq_true.mp hany
        exact ⟨kv, hkv, hp⟩
      obtain ⟨m, hm⟩ := Option.isSome_iff_exists.mp hsome
      rw [hm]
      rfl
    · rw [if_neg h2, if_neg h2, objGet]
  · rw [if_neg hany, List.find?_append]
    by_cases h2 : k' = k
    · subst h2
      rw [if_pos rfl]
      have hnone : tbl.find? (fun kv => kv.1 = k') = none := by
        rw [List.find?_eq_none]
        intro kv hkv hp
        exact hany (List.any_eq_true.mpr ⟨kv, hkv, hp⟩)
      rw [hnone]
      simp
    · have hk : ¬ (k = k') := fun hh => h2 hh.symm
      rw [if_neg h2, objGet]
      cases h3 : tbl.find? (fun kv => kv.1 = k') with
      | none => simp [h3, List.find?_cons, hk]
      | some m => simp [h3]

lemma objGet_filetypesFold (fts : List (String × FileTypeDef))
    (tbl : List (String × FileType)) (u : String) (h : ∀ kd ∈ fts, kd.1 ≠ u) :
    objGet (fts.foldl (fun t kd => objSet t kd.1 (FileType.ofDef kd.1 kd.2)) tbl) u
      = objGet tbl u := by
  induction fts generalizing tbl with
  | nil => rfl
  | cons kd fts ih =>
    rw [List.foldl_cons, ih _ (fun x hx => h x (List.mem_cons_of_mem kd hx)),
      objGet_objSet, if_neg (fun hh => h kd (List.mem_cons_self kd fts) hh.symm)]

lemma objGet_pathsFold (ps : List (String × PathMappingValue))
    (tbl : List (String × FileType)) (u : String)
    (h : ∀ gv ∈ ps, ∀ d, gv.2 = PathMappingValue.inlineDef d → gv.1 ≠ u) :
    objGet (ps.foldl
        (fun t gv =>
          match gv.2 with
          | .inlineDef d => objSet t gv.1 (FileType.ofDef gv.1 d)
          | .ftName _ => t) tbl) u
      = objGet tbl u := by
  induction ps generalizing tbl with
  | nil => rfl
  | cons gv ps ih =>
    rw [List.foldl_cons, ih _ (fun x hx => h x (List.mem_cons_of_mem gv hx))]
    cases hv : gv.2 with
    | ftName s => rfl
    | inlineDef d =>
      rw [objGet_objSet, if_neg (fun hh => h gv (List.mem_cons_self gv ps) d hv hh.symm)]

lemma objGet_construct_of_noOverride (config : ProjectConfig) (u : String)
    (hu : noUserOverride config u) :
    objGet (Project.construct config).filetypes u
      = objGet [("xliff", xliffFileTypeDefinition), ("unknown", unknownFileTypeDefinition)] u := by
  obtain ⟨h1, h2⟩ := hu
  rw [Project.construct]
  cases hft : config.filetypes with
  | none =>
    rw [objGet_pathsFold _ _ u h2]
  | some userFts =>
    rw [objGet_pathsFold _ _ u h2,
      objGet_filetypesFold _ _ u (by simp only [hft, Option.getD_some] at h1; exact h1)]

lemma isSome_objGet_objSet {α : Type} (tbl : List (String × α)) (k u : String) (v : α)
    (h : (objGet tbl u).isSome = true) : (objGet (objSet tbl k v) u).isSome = true := by
  rw [objGet_objSet]
  by_cases h2 : u = k
  · rw [if_pos h2]
    rfl
  · rw [if_neg h2]
    exact h

lemma isSome_objGet_filetypesFold (fts : List (String × FileTypeDef))
    (tbl : List (String × FileType)) (u : String) (h : (objGet tbl u).isSome = true) :
    (objGet (fts.foldl (fun t kd => objSet t kd.1 (FileType.ofDef kd.1 kd.2)) tbl) u).isSome
      = true := by
  induction fts generalizing tbl with
  | nil => exact h
  | cons kd fts ih => exact ih _ (isSome_objGet_objSet tbl kd.1 u _ h)

lemma isSome_objGet_pathsFold (ps : List (String × PathMappingValue))
    (tbl : List (String × FileType)) (u : String) (h : (objGet tbl u).isSome = true) :
    (objGet (ps.foldl
        (fun t gv =>
          match gv.2 with
          | .inlineDef d => objSet t gv.1 (FileType.ofDef gv.1 d)
          | .ftName _ => t) tbl) u).isSome = true := by
  induction ps generalizing tbl with
  | nil => exact h
  | cons gv ps ih =>
    rw [List.foldl_cons]
    cases hv : gv.2 with
    | ftName s => exact ih _ h
    | inlineDef d => exact ih _ (isSome_objGet_objSet tbl gv.1 u _ h)

lemma isSome_objGet_construct (config : ProjectConfig) (u : String)
    (h : (objGet [("xliff", xliffFileTypeDefinition),
        ("unknown", unknownFileTypeDefinition)] u).isSome = true) :
    (objGet (Project.construct config).filetypes u).isSome = true := by
  rw [Project.construct]
  cases hft : config.filetypes with
  | none => exact isSome_objGet_pathsFold _ _ u h
  | some userFts => exact isSome_objGet_pathsFold _ _ u (isSome_objGet_filetypesFold _ _ u h)

lemma find?_eq_get_of_first {α : Type} (l : List α) (p : α → Bool) (i : Nat)
    (hi : i < l.length) (hp : p (l.get ⟨i, hi⟩) = true)
    (hmin : ∀ j, (hj : j < i) → p (l.get ⟨j, Nat.lt_trans hj hi⟩) = false) :
    l.find? p = some (l.get ⟨i, hi⟩) := by
  induction l generalizing i with
  | nil => simp at hi
  | cons a tl ih =>
    cases i with
    | zero => simp_all [List.find?_cons]
    | succ n =>
      have ha : p a = false := hmin 0 (Nat.succ_pos n)
      rw [List.find?_cons, ha]
      exact ih n (Nat.lt_of_succ_lt_succ hi) hp
        (fun j hj => hmin (j + 1) (Nat.succ_lt_succ hj))

/-- Claim C1: for every term set and every `string`-shape resource whose
source `s` and target `t` are both text, `match` emits a finding for a term
`x` iff `x` is in the term set, `x` is a substring of `s`, and `x` is not a
substring of `t`; every finding cites `s` as its source fragment and carries
the highlight `Missing term: <e0>` ++ x ++ `</e0>`, and the finding list has
exactly one finding per matching term, in term-list order. -/
theorem claim1 (T : List String) (k file locale s t : String) :
    ∃ findings : List Result,
      ResourceDNTTerms.matchRule ⟨T⟩ ⟨k, "string", JsValue.str s, JsValue.str t⟩ file locale
          = some findings
      ∧ findings = (T.filter (fun y => jsIncludes s y && !jsIncludes t y)).map
            (fun y => mkDNTResult k file locale ⟨s, dntHighlight y⟩)
      ∧ (∀ x : String,
          mkDNTResult k file locale ⟨s, dntHighlight x⟩ ∈ findings
            ↔ x ∈ T ∧ x.data <:+: s.data ∧ ¬ x.data <:+: t.data)
      ∧ (∀ r ∈ findings, r.source = s) := by
  refine ⟨(T.filter (fun y => jsIncludes s y && !jsIncludes t y)).map
      (fun y => mkDNTResult k file locale ⟨s, dntHighlight y⟩), ?_, rfl, ?_, ?_⟩
  · simp [ResourceDNTTerms.matchRule, ResourceDNTTerms.matchResourceF, JsValue.asStr,
      matchStringF_eq, List.map_map, Function.comp]
  · intro x
    constructor
    · intro hx
      obtain ⟨y, hy, hmk⟩ := List.mem_map.mp hx
      have hhl : dntHighlight y = dntHighlight x := congrArg Result.highlight hmk
      obtain rfl := dntHighlight_inj hhl
      obtain ⟨hyT, hcond⟩ := List.mem_filter.mp hy
      rw [Bool.and_eq_true, Bool.not_eq_true'] at hcond
      exact ⟨hyT, (jsIncludes_iff s y).mp hcond.1,
        fun hc => by simp [jsIncludes, hc] at hcond⟩
    · rintro ⟨hxT, hs, ht⟩
      refine List.mem_map.mpr ⟨x, List.mem_filter.mpr ⟨hxT, ?_⟩, rfl⟩
      rw [Bool.and_eq_true, Bool.not_eq_true']
      exact ⟨(jsIncludes_iff s x).mpr hs, by simp [jsIncludes, ht]⟩
  · intro r hr
    obtain ⟨y, _, rfl⟩ := List.mem_map.mp hr
    rfl

/-- Witness for C1 at the end-to-end scenario of the spec: term set
`OAuth`, source `Sign in with OAuth`, target `Connectez-vous`. -/
theorem claim1_witness :
    ∃ findings : List Result,
      ResourceDNTTerms.matchRule ⟨["OAuth"]⟩
          ⟨"signin", "string", JsValue.str "Sign in with OAuth", JsValue.str "Connectez-vous"⟩
          "a.xliff" "fr-FR" = some findings
      ∧ mkDNTResult "signin" "a.xliff" "fr-FR"
          ⟨"Sign in with OAuth", dntHighlight "OAuth"⟩ ∈ findings := by
  obtain ⟨fs, h1, _, h3, _⟩ :=
    claim1 ["OAuth"] "signin" "a.xliff" "fr-FR" "Sign in with OAuth" "Connectez-vous"
  exact ⟨fs, h1, (h3 "OAuth").mpr ⟨by decide, by decide, by decide⟩⟩

/-- Claim C2: for every term set and well-typed `plural` resource, a finding
for term `x` is emitted iff some source category value contains `x` and not
every target category value contains `x`; at most one finding is emitted per
term, and it cites the first source category value (in enumeration order)
containing `x`. -/
theorem claim2 (T : List String) (src tgt : List (String × String)) (k file locale : String)
    (hT : T.Nodup)
    (hsrc : ∀ p ∈ src, p.1 ∈ validPluralCategories)
    (htgt : ∀ p ∈ tgt, p.1 ∈ validPluralCategories) :
    (ResourceDNTTerms.matchRule ⟨T⟩ ⟨k, "plural", strDict src, strDict tgt⟩ file locale
        = some ((ResourceDNTTerms.matchPluralF T src tgt).map (mkDNTResult k file locale)))
    ∧ (∀ x : String,
        ((∃ pr ∈ ResourceDNTTerms.matchPluralF T src tgt, pr.highlight = dntHighlight x)
          ↔ x ∈ T ∧ (∃ v ∈ src.map Prod.snd, jsIncludes v x = true)
              ∧ ¬ (∀ v ∈ tgt.map Prod.snd, jsIncludes v x = true)))
    ∧ (∀ x : String,
        (ResourceDNTTerms.matchPluralF T src tgt).countP
          (fun pr => pr.highlight == dntHighlight x) ≤ 1)
    ∧ (∀ x : String, ∀ pr ∈ ResourceDNTTerms.matchPluralF T src tgt,
        pr.highlight = dntHighlight x →
          (src.map Prod.snd).find? (fun v => jsIncludes v x) = some pr.source) := by
  refine ⟨?_, ?_, ?_, ?_⟩
  · simp [ResourceDNTTerms.matchRule, ResourceDNTTerms.matchResourceF,
      pluralTypeCheck_strDict src tgt hsrc htgt, strEntries_strDict]
  · intro x
    constructor
    · rintro ⟨pr, hpr, hhl⟩
      obtain ⟨y, hy, m, hfind, hall, rfl⟩ := (mem_matchPluralF T src tgt pr).mp hpr
      obtain rfl := dntHighlight_inj hhl
      have hpm := List.find?_some hfind
      refine ⟨hy, ⟨m, List.mem_of_find?_eq_some hfind, by simpa using hpm⟩, ?_⟩
      intro hforall
      rw [← List.all_eq_true] at hforall
      rw [hforall] at hall
      cases hall
    · rintro ⟨hxT, ⟨v, hv, hvx⟩, hnall⟩
      have hsome : ((src.map Prod.snd).find? (fun w => jsIncludes w x)).isSome := by
        rw [List.find?_isSome]
        exact ⟨v, hv, hvx⟩
      obtain ⟨m, hfind⟩ := Option.isSome_iff_exists.mp hsome
      have hall : (tgt.map Prod.snd).all (fun w => jsIncludes w x) = false := by
        cases h : (tgt.map Prod.snd).all (fun w => jsIncludes w x) with
        | true => exact absurd (List.all_eq_true.mp h) hnall
        | false => rfl
      exact ⟨⟨m, dntHighlight x⟩,
        (mem_matchPluralF T src tgt _).mpr ⟨x, hxT, m, hfind, hall, rfl⟩, rfl⟩
  · intro x
    refine countP_filterMap_le_one T _ _ x hT ?_
    intro y hy b hb hp
    cases hfind : (src.map Prod.snd).find? (fun v => jsIncludes v y) with
    | none => rw [hfind] at hb; exact absurd hb (by simp)
    | some m =>
      rw [hfind] at hb
      cases hall : (tgt.map Prod.snd).all (fun v => jsIncludes v y) with
      | true => rw [hall] at hb; exact absurd hb (by simp)
      | false =>
        rw [hall] at hb
        simp only [Bool.not_false, if_true] at hb
        obtain rfl := Option.some.inj hb
        exact dntHighlight_inj (by simpa using hp)
  · intro x pr hpr hhl
    obtain ⟨y, hy, m, hfind, hall, rfl⟩ := (mem_matchPluralF T src tgt pr).mp hpr
    obtain rfl := dntHighlight_inj hhl
    exact hfind

/-- Witness for C2 at the plural end-to-end scenario of the spec. -/
theorem claim2_witness :
    ∃ pr ∈ ResourceDNTTerms.matchPluralF ["OAuth"]
        [("one", "1 OAuth token"), ("other", "%d OAuth tokens")]
        [("one", "1 jeton"), ("other", "%d jetons OAuth")],
      pr.highlight = dntHighlight "OAuth" := by
  have h := claim2 ["OAuth"] [("one", "1 OAuth token"), ("other", "%d OAuth tokens")]
      [("one", "1 jeton"), ("other", "%d jetons OAuth")] "k" "a.xliff" "fr-FR"
      (by decide) (by decide) (by decide)
  exact (h.2.1 "OAuth").mpr ⟨by decide, ⟨"1 OAuth token", by decide, by decide⟩, by decide⟩

/-- Claim C3: for every term set and well-typed `array` resource, the finding
list is the concatenation, in source index order, of the string-shape
findings of the index-aligned pairs, with a missing target index compared
against the empty string. -/
theorem claim3 (terms source target : List String) (k file locale : String) :
    ResourceDNTTerms.matchArrayF terms source target = matchArraySpec terms source target
    ∧ ResourceDNTTerms.matchRule ⟨terms⟩ ⟨k, "array", jsStrArr source, jsStrArr target⟩
        file locale
        = some ((matchArraySpec terms source target).map (mkDNTResult k file locale)) := by
  have h1 : ResourceDNTTerms.matchArrayF terms source target
      = matchArraySpec terms source target := by
    rw [ResourceDNTTerms.matchArrayF, matchArrayGo_eq, matchArraySpec]
    simp
  refine ⟨h1, ?_⟩
  simp [ResourceDNTTerms.matchRule, ResourceDNTTerms.matchResourceF,
    asStringArray_jsStrArr, h1]

/-- Claim C4: `getFileTypeForPath` scans the mapping entries in declaration
order and returns the file type bound to the first matching glob
(first-match, never most-specific-match); a dangling file-type name or no
match at all yields the built-in `unknown` file type.  Stated for projects
whose configuration does not rebind the `unknown` table entry. -/
theorem claim4 (isMatch : String → String → Bool) (normalize : String → String)
    (config : ProjectConfig) (pathName : String)
    (hu : noUserOverride config "unknown") :
    (∀ i, (hi : i < (Project.construct config).mappings.length) →
      isMatch (normalize pathName) (((Project.construct config).mappings.get ⟨i, hi⟩).1) = true →
      (∀ j, (hj : j < i) →
        isMatch (normalize pathName)
          (((Project.construct config).mappings.get ⟨j, Nat.lt_trans hj hi⟩).1) = false) →
      Project.getFileTypeForPath isMatch normalize (Project.construct config) pathName
        = ((objGet (Project.construct config).filetypes
              (mappingTargetName ((Project.construct config).mappings.get ⟨i, hi⟩))).orElse
            (fun _ => some unknownFileTypeDefinition)))
    ∧ ((∀ gv ∈ (Project.construct config).mappings,
          isMatch (normalize pathName) gv.1 = false) →
      Project.getFileTypeForPath isMatch normalize (Project.construct config) pathName
        = some unknownFileTypeDefinition) := by
  have hun : objGet (Project.construct config).filetypes "unknown"
      = some unknownFileTypeDefinition := by
    rw [objGet_construct_of_noOverride config "unknown" hu]
    rfl
  constructor
  · intro i hi hmatch hmin
    have hfind : (Project.construct config).mappings.find?
        (fun gv => isMatch (normalize pathName) gv.1)
        = some ((Project.construct config).mappings.get ⟨i, hi⟩) :=
      find?_eq_get_of_first _ _ i hi hmatch hmin
    rw [Project.getFileTypeForPath, hfind]
    rw [hun]
  · intro hnone
    have hfind : (Project.construct config).mappings.find?
        (fun gv => isMatch (normalize pathName) gv.1) = none := by
      rw [List.find?_eq_none]
      intro gv hgv
      rw [hnone gv hgv]
      simp
    rw [Project.getFileTypeForPath, hfind, hun]

/-- Witness for C4 at the first-match tie-break scenario of the spec:
mapping `src/**` to `A` before `**/*.js` to `B` resolves `src/x.js` to `A`. -/
theorem claim4_witness :
    Project.getFileTypeForPath demoMatch (fun s => s) (Project.construct demoConfig) "src/x.js"
      = some (FileType.ofDef "A" {}) := by
  have hu : noUserOverride demoConfig "unknown" := by
    constructor
    · decide
    · intro gv hgv d hd
      simp [demoConfig] at hgv
      rcases hgv with rfl | rfl <;> simp at hd
  have h := (claim4 demoMatch (fun s => s) demoConfig "src/x.js" hu).1
      0 (by decide) (by decide) (fun j hj => absurd hj (Nat.not_lt_zero j))
  rw [h]
  decide

/-- Claim C5: a resource whose declared shape does not type-check (or whose
shape is unknown) produces no findings and no error: both `_matchResource`
and `match` return `undefined` (`none`), total by construction. -/
theorem claim5 (rule : ResourceDNTTerms) (r : Resource) (file locale : String)
    (h : resourceTypeChecks r = false) :
    ResourceDNTTerms.matchResourceF rule._dntTerms r = none
    ∧ ResourceDNTTerms.matchRule rule r file locale = none := by
  have h1 : ResourceDNTTerms.matchResourceF rule._dntTerms r = none := by
    cases hE : ResourceDNTTerms.matchResourceF rule._dntTerms r with
    | none => rfl
    | some l =>
      have hh := isSome_matchResourceF rule._dntTerms r
      rw [hE, h] at hh
      simp at hh
  refine ⟨h1, ?_⟩
  rw [ResourceDNTTerms.matchRule, h1]
  rfl

/-- Witness for C5: a `string` resource whose source is the number `1`. -/
theorem claim5_witness :
    ResourceDNTTerms.matchRule ⟨["OAuth"]⟩ ⟨"k", "string", JsValue.num 1, JsValue.str "x"⟩
        "a.xliff" "fr-FR" = none :=
  (claim5 ⟨["OAuth"]⟩ ⟨"k", "string", JsValue.num 1, JsValue.str "x"⟩ "a.xliff" "fr-FR"
    (by decide)).2

/-- Claim C6: constructing the rule from a terms file raises a construction
error (an `Except.error`, so no rule instance exists) whenever the file is
malformed JSON, the JSON is not an array of strings, or the declared file
type tag is neither `json` nor `txt`. -/
theorem claim6 (readFile : String → String) (jsonParse : String → Option JsValue)
    (params : DNTParams) (path : String)
    (hterms : params.terms = none)
    (hpath : params.termsFilePath = some path)
    (hbad : (params.termsFileType = some "json" ∧ jsonParse (readFile path) = none)
        ∨ (params.termsFileType = some "json"
            ∧ ∀ v : JsValue, jsonParse (readFile path) = some v → v.asStringArray = none)
        ∨ (params.termsFileType ≠ some "json" ∧ params.termsFileType ≠ some "txt")) :
    ∃ e, ResourceDNTTerms.construct readFile jsonParse params = Except.error e := by
  suffices h : ∃ e, ResourceDNTTerms.constructTerms readFile jsonParse params = Except.error e by
    obtain ⟨e, he⟩ := h
    refine ⟨e, ?_⟩
    rw [ResourceDNTTerms.construct, he]
    rfl
  unfold ResourceDNTTerms.constructTerms
  rw [hterms, hpath]
  show ∃ e, (match params.termsFileType with
      | some "json" => ResourceDNTTerms.parseTermsFromJsonFile readFile jsonParse path
      | some "txt" => Except.ok (ResourceDNTTerms.parseTermsFromTxtFile readFile path)
      | _ => Except.error "not a valid DNT terms file type") = Except.error e
  rcases hbad with ⟨hft, hjp⟩ | ⟨hft, hjp⟩ | ⟨hne1, hne2⟩
  · rw [hft]
    show ∃ e, (match jsonParse (readFile path) with
        | none => (Except.error "Failed to parse DNT terms file as JSON" : Except String (List String))
        | some content =>
          match content.asStringArray with
          | some terms => Except.ok terms
          | none => Except.error "DNT terms JSON file has unexpected content; expected string[]")
      = Except.error e
    rw [hjp]
    exact ⟨_, rfl⟩
  · rw [hft]
    show ∃ e, (match jsonParse (readFile path) with
        | none => (Except.error "Failed to parse DNT terms file as JSON" : Except String (List String))
        | some content =>
          match content.asStringArray with
          | some terms => Except.ok terms
          | none => Except.error "DNT terms JSON file has unexpected content; expected string[]")
      = Except.error e
    cases hv : jsonParse (readFile path) with
    | none => exact ⟨_, rfl⟩
    | some v =>
      show ∃ e, (match v.asStringArray with
          | some terms => (Except.ok terms : Except String (List String))
          | none => Except.error "DNT terms JSON file has unexpected content; expected string[]")
        = Except.error e
      rw [hjp v hv]
      exact ⟨_, rfl⟩
  · rcases hM : (match params.termsFileType with
        | some "json" => ResourceDNTTerms.parseTermsFromJsonFile readFile jsonParse path
        | some "txt" => Except.ok (ResourceDNTTerms.parseTermsFromTxtFile readFile path)
        | _ => (Except.error "not a valid DNT terms file type" : Except String (List String)))
      with e | ts
    · exact ⟨e, hM⟩
    · exfalso
      split at hM
      · rename_i heq
        exact hne1 heq
      · rename_i heq
        exact hne2 heq
      · cases hM

/-- Witness for C6 at the construction-error scenario of the spec: a JSON
terms file containing an object under declared type `json`. -/
theorem claim6_witness :
    ∃ e, ResourceDNTTerms.construct (fun _ => "\x7b\"foo\": 1\x7d")
        (fun _ => some (JsValue.obj [("foo", JsValue.num 1)]))
        ⟨none, some "dnt-terms.json", some "json"⟩ = Except.error e := by
  refine claim6 (fun _ => "\x7b\"foo\": 1\x7d")
      (fun _ => some (JsValue.obj [("foo", JsValue.num 1)]))
      ⟨none, some "dnt-terms.json", some "json"⟩ "dnt-terms.json" rfl rfl ?_
  refine Or.inr (Or.inl ⟨rfl, ?_⟩)
  intro v hv
  cases hv
  rfl

/-- Claim C7: `DeclarativeResourceRule.matchString` invokes the per-pattern
check on each pattern in order, concatenates the findings, drops falsy
entries, and returns `undefined` iff the final list is empty; it never
returns an empty list. -/
theorem claim7 {α β : Type} (checkString : β → CheckStringOut α) (re : List β) :
    (DeclarativeResourceRule.matchStringF checkString re
      = if ((re.map (fun r => (checkString r).findings)).flatten).isEmpty = true
        then none
        else some ((re.map (fun r => (checkString r).findings)).flatten))
    ∧ DeclarativeResourceRule.matchStringF checkString re ≠ some [] := by
  have key : (re.foldl (fun results r => jsConcat results (checkString r)) []).filterMap id
      = (re.map (fun r => (checkString r).findings)).flatten := by
    simpa using filterMap_foldl_jsConcat checkString re []
  have h1 : DeclarativeResourceRule.matchStringF checkString re
      = if ((re.map (fun r => (checkString r).findings)).flatten).isEmpty = true
        then none
        else some ((re.map (fun r => (checkString r).findings)).flatten) := by
    show (if ((re.foldl (fun results r => jsConcat results (checkString r)) []).filterMap
            id).length ≠ 0
        then some ((re.foldl (fun results r => jsConcat results (checkString r)) []).filterMap id)
        else none) = _
    rw [key]
    cases hE : (re.map (fun r => (checkString r).findings)).flatten with
    | nil => simp
    | cons a l => simp
  refine ⟨h1, ?_⟩
  rw [h1]
  cases hE : (re.map (fun r => (checkString r).findings)).flatten with
  | nil => simp
  | cons a l => simp

/-- Witness for C7 on a concrete pattern list: a single result, a list with a
falsy entry, and the single result again concatenate to `some [7, 3, 7]`. -/
theorem claim7_witness :
    DeclarativeResourceRule.matchStringF
        (fun (b : Bool) =>
          if b then CheckStringOut.single (some 7)
          else CheckStringOut.list [none, some 3])
        [true, false, true] = some [7, 3, 7] := by
  have h := (claim7 (fun (b : Bool) =>
      if b then CheckStringOut.single (some 7)
      else CheckStringOut.list [none, some 3]) [true, false, true]).1
  rw [h]
  rfl

/-- Claim C8, amended: every constructed project has `xliff` and `unknown`
entries in its file-type table, and when user configuration does not name
them they are bound to the built-in definitions (`xliff` to the
`resource-check-all` rule set, `unknown` to no rule set); user configuration
can, however, rebind them (see the counterexample). -/
theorem claim8 (config : ProjectConfig) :
    ((objGet (Project.construct config).filetypes "xliff").isSome = true
      ∧ (objGet (Project.construct config).filetypes "unknown").isSome = true)
    ∧ (noUserOverride config "xliff" →
        objGet (Project.construct config).filetypes "xliff" = some xliffFileTypeDefinition)
    ∧ (noUserOverride config "unknown" →
        objGet (Project.construct config).filetypes "unknown" = some unknownFileTypeDefinition)
    ∧ xliffFileTypeDefinition.ruleset = ["resource-check-all"]
    ∧ unknownFileTypeDefinition.ruleset = [] := by
  refine ⟨⟨isSome_objGet_construct config "xliff" (by decide),
      isSome_objGet_construct config "unknown" (by decide)⟩, ?_, ?_, rfl, rfl⟩
  · intro hu
    rw [objGet_construct_of_noOverride config "xliff" hu]
    rfl
  · intro hu
    rw [objGet_construct_of_noOverride config "unknown" hu]
    rfl

/-- Counterexample to C8 as stated: a configuration with a user file type
named `xliff` replaces the built-in binding, so the table entry is no longer
the built-in `xliff` file type. -/
theorem claim8_counterexample :
    (objGet (Project.construct overridingConfig).filetypes "xliff").isSome = true
    ∧ objGet (Project.construct overridingConfig).filetypes "xliff"
        ≠ some xliffFileTypeDefinition := by
  constructor
  · decide
  · decide

/-- Witness for C8 on the empty configuration: both built-ins are intact. -/
theorem claim8_witness :
    objGet (Project.construct ⟨none, none⟩).filetypes "xliff" = some xliffFileTypeDefinition
    ∧ objGet (Project.construct ⟨none, none⟩).filetypes "unknown"
        = some unknownFileTypeDefinition := by
  have h := claim8 ⟨none, none⟩
  exact ⟨h.2.1 ⟨by simp, by simp⟩, h.2.2.1 ⟨by simp, by simp⟩⟩

/-- Claim C9: `match` leaves the rule state untouched (the method body never
writes `this`), so calling it twice on the same resource with the same
instance yields identical findings. -/
theorem claim9 (rule : ResourceDNTTerms) (resource : Resource) (file locale : String) :
    ((ResourceDNTTerms.matchStep rule resource file locale).2 = rule)
    ∧ ((ResourceDNTTerms.matchStep
          ((ResourceDNTTerms.matchStep rule resource file locale).2) resource file locale).1
        = (ResourceDNTTerms.matchStep rule resource file locale).1) :=
  ⟨rfl, rfl⟩

/-- Claim C10: `match` returns `undefined` exactly on resources that fail
the shape type-check, and an empty list (not `undefined`) on well-typed
resources in which no configured term is missing from the target. -/
theorem claim10 (rule : ResourceDNTTerms) (r : Resource) (file locale : String) :
    (ResourceDNTTerms.matchRule rule r file locale = none ↔ resourceTypeChecks r = false)
    ∧ (resourceTypeChecks r = true → specNoMissingTerm rule._dntTerms r = true →
        ResourceDNTTerms.matchRule rule r file locale = some []) := by
  constructor
  · rw [ResourceDNTTerms.matchRule, Option.map_eq_none']
    constructor
    · intro h
      have hh := isSome_matchResourceF rule._dntTerms r
      rw [h] at hh
      simpa using hh.symm
    · intro h
      have hh := isSome_matchResourceF rule._dntTerms r
      rw [h] at hh
      exact Option.not_isSome_iff_eq_none.mp (by simp [hh])
  · intro h1 h2
    rw [ResourceDNTTerms.matchRule, matchResourceF_eq_nil rule._dntTerms r h1 h2]
    rfl

/-- Witness for C10: a well-typed string resource where the term appears in
source and target gives `some []`. -/
theorem claim10_witness :
    ResourceDNTTerms.matchRule ⟨["OAuth"]⟩
        ⟨"k", "string", JsValue.str "no term here", JsValue.str "rien"⟩ "f.xliff" "fr-FR"
      = some [] :=
  (claim10 ⟨["OAuth"]⟩ ⟨"k", "string", JsValue.str "no term here", JsValue.str "rien"⟩
    "f.xliff" "fr-FR").2 (by decide) (by decide)
